import Mathlib

/-!
# SecureFinance — verification of the encryption/key-management protocol and
# the anomaly-detection engine

Shallow embedding of the core of the SecureFinance repository:

* `src/frontend/src/utils/encryption.ts` — codec helpers (`str2ab`, `ab2str`,
  `ab2base64`, `base642ab`), the AES-GCM envelope wrappers (`encryptData`,
  `decryptData`), salt storage (`SaltStorage`) and key management
  (`KeyManager`);
* the anomaly-detection engine (`AnomalyDetector`): `mean`,
  `standardDeviation`, `zScore`, `detectAmountAnomaly`,
  `detectLargeTransaction`, `percentile`, `analyzeTransaction`,
  `batchAnalyze`;
* the persistence model for anomaly findings (`AnomalyModel`) and the
  `anomalies` table DDL (foreign-key on-delete actions);
* the batch read path `fetchTransactions` of
  `src/frontend/src/hooks/useTransactions.ts`.

Modelling conventions:

* Bytes and JS binary strings are `List Nat` with every element `< 256`;
  JS strings are lists of Unicode code points (`List Nat`).
* JS `number` arithmetic is modelled exactly over `ℚ`; `Math.sqrt` is
  modelled by `Rat.sqrt`, which agrees with IEEE sqrt on the perfect
  squares the claims exercise.
* The AES-GCM primitive (`crypto.subtle.encrypt/decrypt`) and PBKDF2
  (`crypto.subtle.deriveKey`) are platform primitives, not repository code;
  they enter as function parameters together with their documented
  authenticated-encryption contract.
* Stateful code (the key-value salt store, the anomalies table) is modelled
  by explicit state passing; fallible code returns `Option`.
* Human-readable `description` strings built by template interpolation are
  display-only and are not modelled.
-/

/-! ## Codec: Base64 (`ab2base64` / `base642ab`, via `btoa` / `atob`) -/

/-- Base64 alphabet of `btoa`: the six-bit value `n < 64` mapped to the char
code of the RFC 4648 standard alphabet character. -/
def b64EncChar (n : Nat) : Nat :=
  if n < 26 then 65 + n
  else if n < 52 then 71 + n
  else if n < 62 then n - 4
  else if n = 62 then 43
  else 47

/-- Inverse alphabet lookup of `atob`: char code back to six-bit value,
`none` on a character outside the alphabet. -/
def b64DecChar (c : Nat) : Option Nat :=
  if 65 ≤ c ∧ c ≤ 90 then some (c - 65)
  else if 97 ≤ c ∧ c ≤ 122 then some (c - 71)
  else if 48 ≤ c ∧ c ≤ 57 then some (c + 4)
  else if c = 43 then some 62
  else if c = 47 then some 63
  else none

/-- `ab2base64` (encryption.ts:39-42): bytes to the char codes of their
Base64 encoding, including `'='` (61) padding, grouping bytes in threes. -/
def base64Encode : List Nat → List Nat
  | [] => []
  | [b0] => [b64EncChar (b0 / 4), b64EncChar (b0 % 4 * 16), 61, 61]
  | [b0, b1] =>
      [b64EncChar (b0 / 4), b64EncChar (b0 % 4 * 16 + b1 / 16),
       b64EncChar (b1 % 16 * 4), 61]
  | b0 :: b1 :: b2 :: rest =>
      b64EncChar (b0 / 4) :: b64EncChar (b0 % 4 * 16 + b1 / 16) ::
      b64EncChar (b1 % 16 * 4 + b2 / 64) :: b64EncChar (b2 % 64) ::
      base64Encode rest

/-- `base642ab` (encryption.ts:47-54): Base64 char codes back to bytes;
`none` where `atob` would throw (ragged length or bad character). -/
def base64Decode : List Nat → Option (List Nat)
  | [] => some []
  | c0 :: c1 :: c2 :: c3 :: rest => do
      let s0 ← b64DecChar c0
      let s1 ← b64DecChar c1
      if c2 = 61 ∧ c3 = 61 ∧ rest = [] then
        some [s0 * 4 + s1 / 16]
      else if c3 = 61 ∧ rest = [] then do
        let s2 ← b64DecChar c2
        some [s0 * 4 + s1 / 16, s1 % 16 * 16 + s2 / 4]
      else do
        let s2 ← b64DecChar c2
        let s3 ← b64DecChar c3
        let tail ← base64Decode rest
        some ((s0 * 4 + s1 / 16) :: (s1 % 16 * 16 + s2 / 4) ::
              (s2 % 4 * 64 + s3) :: tail)
  | _ => none

theorem b64DecChar_encChar : ∀ n < 64, b64DecChar (b64EncChar n) = some n := by
  decide

theorem b64EncChar_ne_pad : ∀ n < 64, b64EncChar n ≠ 61 := by
  decide

theorem b64EncChar_lt (n : Nat) : b64EncChar n < 256 := by
  unfold b64EncChar
  repeat' split
  all_goals omega

theorem base64Decode_encode (bs : List Nat) (h : ∀ b ∈ bs, b < 256) :
    base64Decode (base64Encode bs) = some bs := by
  induction bs using base64Encode.induct with
  | case1 => simp [base64Encode, base64Decode]
  | case2 b0 =>
      have hb0 : b0 < 256 := h b0 (by simp)
      have h0 : b0 / 4 < 64 := by omega
      have h1 : b0 % 4 * 16 < 64 := by omega
      simp only [base64Encode, base64Decode, b64DecChar_encChar _ h0,
        b64DecChar_encChar _ h1, Option.bind_eq_bind, Option.some_bind]
      simp
      omega
  | case3 b0 b1 =>
      have hb0 : b0 < 256 := h b0 (by simp)
      have hb1 : b1 < 256 := h b1 (by simp)
      have h0 : b0 / 4 < 64 := by omega
      have h1 : b0 % 4 * 16 + b1 / 16 < 64 := by omega
      have h2 : b1 % 16 * 4 < 64 := by omega
      simp only [base64Encode, base64Decode, b64DecChar_encChar _ h0,
        b64DecChar_encChar _ h1, Option.bind_eq_bind, Option.some_bind]
      have hpad : b64EncChar (b1 % 16 * 4) ≠ 61 := b64EncChar_ne_pad _ h2
      simp [hpad, b64DecChar_encChar _ h2]
      omega
  | case4 b0 b1 b2 rest ih =>
      have hb0 : b0 < 256 := h b0 (by simp)
      have hb1 : b1 < 256 := h b1 (by simp)
      have hb2 : b2 < 256 := h b2 (by simp)
      have h0 : b0 / 4 < 64 := by omega
      have h1 : b0 % 4 * 16 + b1 / 16 < 64 := by omega
      have h2 : b1 % 16 * 4 + b2 / 64 < 64 := by omega
      have h3 : b2 % 64 < 64 := by omega
      have hrest : ∀ b ∈ rest, b < 256 := fun b hb => h b (by simp [hb])
      have hpad2 : b64EncChar (b1 % 16 * 4 + b2 / 64) ≠ 61 :=
        b64EncChar_ne_pad _ h2
      have hpad3 : b64EncChar (b2 % 64) ≠ 61 := b64EncChar_ne_pad _ h3
      simp only [base64Encode, base64Decode, b64DecChar_encChar _ h0,
        b64DecChar_encChar _ h1, b64DecChar_encChar _ h2,
        b64DecChar_encChar _ h3, Option.bind_eq_bind, Option.some_bind,
        ih hrest]
      simp [hpad2, hpad3]
      omega

/-- Bytes produced by `base64Encode` are char codes of Base64 characters,
in particular `< 256`. -/
theorem base64Encode_lt (bs : List Nat) : ∀ c ∈ base64Encode bs, c < 256 := by
  induction bs using base64Encode.induct with
  | case1 => simp [base64Encode]
  | case2 b0 =>
      intro c hc
      simp only [base64Encode, List.mem_cons, List.not_mem_nil,
        or_false] at hc
      rcases hc with rfl | rfl | hc
      · exact b64EncChar_lt _
      · exact b64EncChar_lt _
      · omega
  | case3 b0 b1 =>
      intro c hc
      simp only [base64Encode, List.mem_cons, List.not_mem_nil,
        or_false] at hc
      rcases hc with rfl | rfl | rfl | rfl
      · exact b64EncChar_lt _
      · exact b64EncChar_lt _
      · exact b64EncChar_lt _
      · omega
  | case4 b0 b1 b2 rest ih =>
      simp only [base64Encode, List.mem_cons]
      rintro c (rfl | rfl | rfl | rfl | hc)
      · exact b64EncChar_lt _
      · exact b64EncChar_lt _
      · exact b64EncChar_lt _
      · exact b64EncChar_lt _
      · exact ih c hc

/-! ## Codec: UTF-8 (`str2ab` / `ab2str`, via `TextEncoder` / `TextDecoder`) -/

/-- UTF-8 encoding of a single Unicode code point (WHATWG `TextEncoder`). -/
def utf8EncodeChar (c : Nat) : List Nat :=
  if c < 128 then [c]
  else if c < 2048 then [192 + c / 64, 128 + c % 64]
  else if c < 65536 then [224 + c / 4096, 128 + c / 64 % 64, 128 + c % 64]
  else [240 + c / 262144, 128 + c / 4096 % 64, 128 + c / 64 % 64, 128 + c % 64]

def utf8Step : List Nat → Nat × Nat
  | [] => (65533, 1)
  | b0 :: bs =>
    if b0 < 128 then (b0, 1)
    else if b0 < 192 then (65533, 1)
    else if b0 < 224 then
      match bs with
      | b1 :: _ =>
        if 128 ≤ b1 ∧ b1 < 192 then ((b0 - 192) * 64 + (b1 - 128), 2)
        else (65533, 1)
      | [] => (65533, 1)
    else if b0 < 240 then
      match bs with
      | b1 :: b2 :: _ =>
        if (128 ≤ b1 ∧ b1 < 192) ∧ (128 ≤ b2 ∧ b2 < 192) then
          ((b0 - 224) * 4096 + (b1 - 128) * 64 + (b2 - 128), 3)
        else (65533, 1)
      | _ => (65533, 1)
    else
      match bs with
      | b1 :: b2 :: b3 :: _ =>
        if (128 ≤ b1 ∧ b1 < 192) ∧ (128 ≤ b2 ∧ b2 < 192) ∧
            (128 ≤ b3 ∧ b3 < 192) then
          ((b0 - 240) * 262144 + (b1 - 128) * 4096 + (b2 - 128) * 64 +
            (b3 - 128), 4)
        else (65533, 1)
      | _ => (65533, 1)

theorem utf8Step_pos (l : List Nat) : 1 ≤ (utf8Step l).2 := by
  unfold utf8Step
  repeat' split
  all_goals simp

def utf8Decode : List Nat → List Nat
  | [] => []
  | b0 :: bs =>
      (utf8Step (b0 :: bs)).1 ::
        utf8Decode ((b0 :: bs).drop (utf8Step (b0 :: bs)).2)
  termination_by l => l.length
  decreasing_by
    simp_wf
    have h := utf8Step_pos (b0 :: bs)
    omega

theorem utf8Step_encodeChar (c : Nat) (hc : c < 1114112) (rest : List Nat) :
    utf8Step (utf8EncodeChar c ++ rest) = (c, (utf8EncodeChar c).length) := by
  by_cases h1 : c < 128
  · have henc : utf8EncodeChar c = [c] := by rw [utf8EncodeChar, if_pos h1]
    rw [henc]
    simp [utf8Step, h1]
  · by_cases h2 : c < 2048
    · have henc : utf8EncodeChar c = [192 + c / 64, 128 + c % 64] := by
        rw [utf8EncodeChar, if_neg h1, if_pos h2]
      have e1 : ¬(192 + c / 64 < 128) := by omega
      have e2 : ¬(192 + c / 64 < 192) := by omega
      have e3 : 192 + c / 64 < 224 := by omega
      have e4 : 128 ≤ 128 + c % 64 ∧ 128 + c % 64 < 192 := by omega
      rw [henc]
      simp only [List.cons_append, List.nil_append, List.length_cons,
        List.length_nil, utf8Step]
      rw [if_neg e1, if_neg e2, if_pos e3, if_pos e4]
      simp
      omega
    · by_cases h3 : c < 65536
      · have henc : utf8EncodeChar c =
            [224 + c / 4096, 128 + c / 64 % 64, 128 + c % 64] := by
          rw [utf8EncodeChar, if_neg h1, if_neg h2, if_pos h3]
        have e1 : ¬(224 + c / 4096 < 128) := by omega
        have e2 : ¬(224 + c / 4096 < 192) := by omega
        have e3 : ¬(224 + c / 4096 < 224) := by omega
        have e4 : 224 + c / 4096 < 240 := by omega
        have e5 : (128 ≤ 128 + c / 64 % 64 ∧ 128 + c / 64 % 64 < 192) ∧
            (128 ≤ 128 + c % 64 ∧ 128 + c % 64 < 192) := by omega
        rw [henc]
        simp only [List.cons_append, List.nil_append, List.length_cons,
          List.length_nil, utf8Step]
        rw [if_neg e1, if_neg e2, if_neg e3, if_pos e4, if_pos e5]
        simp
        omega
      · have henc : utf8EncodeChar c =
            [240 + c / 262144, 128 + c / 4096 % 64, 128 + c / 64 % 64,
             128 + c % 64] := by
          rw [utf8EncodeChar, if_neg h1, if_neg h2, if_neg h3]
        have e1 : ¬(240 + c / 262144 < 128) := by omega
        have e2 : ¬(240 + c / 262144 < 192) := by omega
        have e3 : ¬(240 + c / 262144 < 224) := by omega
        have e4 : ¬(240 + c / 262144 < 240) := by omega
        have e5 : (128 ≤ 128 + c / 4096 % 64 ∧ 128 + c / 4096 % 64 < 192) ∧
            (128 ≤ 128 + c / 64 % 64 ∧ 128 + c / 64 % 64 < 192) ∧
            (128 ≤ 128 + c % 64 ∧ 128 + c % 64 < 192) := by omega
        rw [henc]
        simp only [List.cons_append, List.nil_append, List.length_cons,
          List.length_nil, utf8Step]
        rw [if_neg e1, if_neg e2, if_neg e3, if_neg e4, if_pos e5]
        simp
        omega

theorem utf8Decode_encodeChar (c : Nat) (hc : c < 1114112)
    (rest : List Nat) :
    utf8Decode (utf8EncodeChar c ++ rest) = c :: utf8Decode rest := by
  have hne : utf8EncodeChar c ≠ [] := by
    unfold utf8EncodeChar
    repeat' split
    all_goals simp
  have hstep := utf8Step_encodeChar c hc rest
  rcases henc : utf8EncodeChar c ++ rest with _ | ⟨b0, bs⟩
  · exact absurd (List.append_eq_nil.mp henc).1 hne
  · rw [utf8Decode]
    rw [← henc, hstep]
    simp [← henc, List.drop_left]

/-- `str2ab` (encryption.ts:23-26): a JS string, modelled as its list of
code points, encoded to UTF-8 bytes. -/
def utf8Encode : List Nat → List Nat
  | [] => []
  | c :: cs => utf8EncodeChar c ++ utf8Encode cs

/-- Decoding inverts encoding on lists of Unicode code points
(`ab2str (str2ab s) = s`); `ab2str` (encryption.ts:31-34) is `utf8Decode`,
non-fatal `TextDecoder` semantics. -/
theorem utf8Decode_encode (cs : List Nat) (h : ∀ c ∈ cs, c < 1114112) :
    utf8Decode (utf8Encode cs) = cs := by
  induction cs with
  | nil => simp [utf8Encode, utf8Decode]
  | cons c cs ih =>
      have hc : c < 1114112 := h c (by simp)
      have hcs : ∀ x ∈ cs, x < 1114112 := fun x hx => h x (by simp [hx])
      simp [utf8Encode, utf8Decode_encodeChar c hc, ih hcs]

/-- UTF-8 bytes are bytes. -/
theorem utf8EncodeChar_lt (c : Nat) (hc : c < 1114112) :
    ∀ b ∈ utf8EncodeChar c, b < 256 := by
  intro b hb
  unfold utf8EncodeChar at hb
  split at hb
  · simp at hb; omega
  · split at hb
    · simp at hb; rcases hb with rfl | rfl <;> omega
    · split at hb
      · simp at hb; rcases hb with rfl | rfl | rfl <;> omega
      · simp at hb; rcases hb with rfl | rfl | rfl | rfl <;> omega

theorem utf8Encode_lt (cs : List Nat) (h : ∀ c ∈ cs, c < 1114112) :
    ∀ b ∈ utf8Encode cs, b < 256 := by
  induction cs with
  | nil => simp [utf8Encode]
  | cons c cs ih =>
      intro b hb
      simp only [utf8Encode, List.mem_append] at hb
      rcases hb with hb | hb
      · exact utf8EncodeChar_lt c (h c (by simp)) b hb
      · exact ih (fun x hx => h x (by simp [hx])) b hb

/-! ## Encryption protocol (`encryptData` / `decryptData`)

AES-GCM (`crypto.subtle.encrypt` / `crypto.subtle.decrypt`) and PBKDF2
(`crypto.subtle.deriveKey`) are platform primitives; they are passed as
explicit function parameters (`aeadEnc`, `aeadDec`, `deriveKey`) over byte
lists, together with the authenticated-encryption inverse contract where a
theorem needs it. The fresh random IV of `encryptData` is passed explicitly.
-/

/-- The transport envelope returned by `encryptData` (encryption.ts:116-119):
Base64 ciphertext and Base64 IV, as char-code lists. -/
structure Envelope where
  encryptedData : List Nat
  iv : List Nat
deriving DecidableEq

/-- `encryptData` (encryption.ts:99-120): UTF-8 encode the plaintext, run
the AEAD primitive under the given key and fresh IV, Base64 both outputs. -/
def encryptData (aeadEnc : List Nat → List Nat → List Nat → List Nat)
    (iv : List Nat) (data : List Nat) (key : List Nat) : Envelope :=
  ⟨base64Encode (aeadEnc key iv (utf8Encode data)), base64Encode iv⟩

/-- `decryptData` (encryption.ts:125-143): Base64-decode ciphertext and IV,
run the AEAD decrypt primitive, UTF-8 decode. `none` models the thrown
`DecryptionError` (authentication failure or malformed Base64). -/
def decryptData (aeadDec : List Nat → List Nat → List Nat → Option (List Nat))
    (encryptedData iv : List Nat) (key : List Nat) : Option (List Nat) := do
  let encryptedBuffer ← base64Decode encryptedData
  let ivBuffer ← base64Decode iv
  let decryptedBuffer ← aeadDec key ivBuffer encryptedBuffer
  some (utf8Decode decryptedBuffer)

/-! ## Salt storage and key manager (`SaltStorage` / `KeyManager`) -/

/-- Browser `localStorage`, modelled as a partial map from string keys to
stored values (char-code lists). -/
def LocalStorage : Type := String → Option (List Nat)

def LocalStorage.setItem (st : LocalStorage) (k : String) (v : List Nat) :
    LocalStorage :=
  fun k2 => if k2 = k then some v else st k2

def LocalStorage.getItem (st : LocalStorage) (k : String) :
    Option (List Nat) :=
  st k

def LocalStorage.removeItem (st : LocalStorage) (k : String) : LocalStorage :=
  fun k2 => if k2 = k then none else st k2

/-- The `localStorage` key used for a user's salt: `` `salt_${userId}` ``. -/
def saltKey (userId : Nat) : String := "salt_" ++ toString userId

/-- `SaltStorage.saveSalt` (encryption.ts:200-203): Base64-encode the salt
and `setItem` it, overwriting any previous value for this user. -/
def saveSalt (st : LocalStorage) (userId : Nat) (salt : List Nat) :
    LocalStorage :=
  st.setItem (saltKey userId) (base64Encode salt)

/-- `SaltStorage.getSalt` (encryption.ts:208-214): `none` when absent,
otherwise Base64-decode the stored value. -/
def getSalt (st : LocalStorage) (userId : Nat) : Option (List Nat) :=
  match st.getItem (saltKey userId) with
  | none => none
  | some v => base64Decode v

/-- `SaltStorage.removeSalt` (encryption.ts:219-221). -/
def removeSalt (st : LocalStorage) (userId : Nat) : LocalStorage :=
  st.removeItem (saltKey userId)

/-- `KeyManager.initializeForUser` (encryption.ts:232-239): generate a fresh
random salt (passed explicitly), save it unconditionally, and derive the
key from the password and the fresh salt. There is no check whether a salt
already exists for the user. -/
def initializeForUser (deriveKey : List Nat → List Nat → List Nat)
    (st : LocalStorage) (userId : Nat) (password : List Nat)
    (freshSalt : List Nat) : LocalStorage × List Nat :=
  (saveSalt st userId freshSalt, deriveKey password freshSalt)

/-- `KeyManager.getKeyForUser` (encryption.ts:244-250): `none` models the
thrown salt-not-found error. -/
def getKeyForUser (deriveKey : List Nat → List Nat → List Nat)
    (st : LocalStorage) (userId : Nat) (password : List Nat) :
    Option (List Nat) :=
  match getSalt st userId with
  | none => none
  | some salt => some (deriveKey password salt)

/-- C1: for every password, salt and plaintext `M` (over Unicode code
points, including `[]`), and any AEAD primitive satisfying its inverse
contract, decrypting the envelope produced by `encryptData` with the key
`deriveKey password salt` returns `M`:
`decryptData (encryptData M k).encryptedData (encryptData M k).iv k = M`
for `k = deriveKey password salt`. -/
theorem encryptData_decryptData_roundtrip
    (aeadEnc : List Nat → List Nat → List Nat → List Nat)
    (aeadDec : List Nat → List Nat → List Nat → Option (List Nat))
    (deriveKey : List Nat → List Nat → List Nat)
    (hdec : ∀ k iv pt, aeadDec k iv (aeadEnc k iv pt) = some pt)
    (henc : ∀ k iv pt, (∀ b ∈ pt, b < 256) → ∀ b ∈ aeadEnc k iv pt, b < 256)
    (password salt iv : List Nat) (hiv : ∀ b ∈ iv, b < 256)
    (M : List Nat) (hM : ∀ c ∈ M, c < 1114112) :
    decryptData aeadDec
      (encryptData aeadEnc iv M (deriveKey password salt)).encryptedData
      (encryptData aeadEnc iv M (deriveKey password salt)).iv
      (deriveKey password salt) = some M := by
  have hpt : ∀ b ∈ utf8Encode M, b < 256 := utf8Encode_lt M hM
  have hct : ∀ b ∈ aeadEnc (deriveKey password salt) iv (utf8Encode M),
      b < 256 := henc _ _ _ hpt
  simp only [encryptData, decryptData, base64Decode_encode _ hct,
    base64Decode_encode _ hiv, Option.bind_eq_bind, Option.some_bind,
    hdec, utf8Decode_encode M hM]

/-- Witness for C1 at a concrete instance: identity AEAD, password `"p"`
(code points `[112]`), salt `[1]`, IV `[0]`, plaintext `"Hi"`
(`[72, 105]`). -/
theorem encryptData_decryptData_roundtrip_witness :
    decryptData (fun _ _ ct => some ct)
      (encryptData (fun _ _ pt => pt) [0] [72, 105] []).encryptedData
      (encryptData (fun _ _ pt => pt) [0] [72, 105] []).iv
      [] = some [72, 105] :=
  encryptData_decryptData_roundtrip (fun _ _ pt => pt) (fun _ _ ct => some ct)
    (fun _ _ => []) (fun _ _ _ => rfl) (fun _ _ _ h => h) [112] [1] [0]
    (by decide) [72, 105] (by decide)

/-- C10: for a userId that already has a stored salt,
`KeyManager.initializeForUser` does not fail: it saves the fresh random
salt over the old one and returns the key derived from the fresh salt, so
the old salt is no longer retrievable (the key derived from it becomes
unrecoverable). -/
theorem initializeForUser_overwrites_salt
    (deriveKey : List Nat → List Nat → List Nat) (st : LocalStorage)
    (userId : Nat) (password oldSalt freshSalt : List Nat)
    (hold : getSalt st userId = some oldSalt)
    (hfresh : ∀ b ∈ freshSalt, b < 256) :
    getSalt (initializeForUser deriveKey st userId password freshSalt).1
        userId = some freshSalt ∧
    (initializeForUser deriveKey st userId password freshSalt).2 =
        deriveKey password freshSalt ∧
    (freshSalt ≠ oldSalt →
      getSalt (initializeForUser deriveKey st userId password freshSalt).1
        userId ≠ some oldSalt) := by
  have hget : getSalt (initializeForUser deriveKey st userId password
      freshSalt).1 userId = some freshSalt := by
    simp only [initializeForUser, saveSalt, getSalt, LocalStorage.getItem,
      LocalStorage.setItem, if_pos rfl]
    exact base64Decode_encode freshSalt hfresh
  refine ⟨hget, rfl, fun hne hcontra => hne ?_⟩
  rw [hget] at hcontra
  exact Option.some.inj hcontra

/-- Witness for C10: user 1 already stores salt `[5]`; re-initializing with
fresh salt `[7]` overwrites it. -/
theorem initializeForUser_overwrites_salt_witness :
    getSalt (initializeForUser (fun _ s => s)
        (saveSalt (fun _ => none) 1 [5]) 1 [112] [7]).1 1 = some [7] ∧
    (initializeForUser (fun _ s => s)
        (saveSalt (fun _ => none) 1 [5]) 1 [112] [7]).2 = [7] ∧
    (([7] : List Nat) ≠ [5] →
      getSalt (initializeForUser (fun _ s => s)
        (saveSalt (fun _ => none) 1 [5]) 1 [112] [7]).1 1 ≠ some [5]) :=
  initializeForUser_overwrites_salt (fun _ s => s)
    (saveSalt (fun _ => none) 1 [5]) 1 [112] [5] [7] (by decide) (by decide)

/-! ## Anomaly engine (`AnomalyDetector`, backend anomaly detector)

JS `number` arithmetic is modelled exactly over `ℚ`; `Math.sqrt` by
`Rat.sqrt` (exact on the perfect squares the claims exercise);
`Math.pow (x, 2)` by `x * x`. The display-only `description` strings are
not modelled. -/

/-- The closed severity enumeration `'low' | 'medium' | 'high'`. -/
inductive Severity where
  | low
  | medium
  | high
deriving DecidableEq

/-- Severity ordering used to state "severity at least medium". -/
def Severity.rank : Severity → Nat
  | .low => 0
  | .medium => 1
  | .high => 2

/-- The `AnomalyResult` interface (sans display-only `description`). -/
structure AnomalyResult where
  isAnomaly : Bool
  type : String
  severity : Severity
deriving DecidableEq

/-- `AnomalyDetector.mean`: 0 on empty input, else sum divided by length. -/
def mean (values : List ℚ) : ℚ :=
  if values.length = 0 then 0 else values.sum / values.length

/-- `AnomalyDetector.standardDeviation`: population standard deviation —
square root of the mean of squared deviations from the mean; 0 on empty
input. -/
def standardDeviation (values : List ℚ) : ℚ :=
  if values.length = 0 then 0
  else
    Rat.sqrt (mean (values.map (fun value =>
      (value - mean values) * (value - mean values))))

/-- `AnomalyDetector.zScore`: 0 when the standard deviation is 0. -/
def zScore (value m stdDev : ℚ) : ℚ :=
  if stdDev = 0 then 0 else (value - m) / stdDev

/-- `AnomalyDetector.detectAmountAnomaly` (threshold defaults to 2.5 at the
call sites that omit it). -/
def detectAmountAnomaly (amount : ℚ) (historicalAmounts : List ℚ)
    (threshold : ℚ) : AnomalyResult :=
  if historicalAmounts.length < 5 then
    ⟨false, "insufficient_data", .low⟩
  else
    let m := mean historicalAmounts
    let stdDev := standardDeviation historicalAmounts
    let z := zScore amount m stdDev
    if |z| > threshold then
      ⟨true, "unusual_amount",
        if |z| > 4 then .high else if |z| > 3 then .medium else .low⟩
    else
      ⟨false, "normal", .low⟩

/-- `AnomalyDetector.detectLargeTransaction`. -/
def detectLargeTransaction (amount percentile90 : ℚ) : AnomalyResult :=
  if amount > percentile90 * 2 then
    ⟨true, "large_transaction",
      if amount > percentile90 * 5 then .high else .medium⟩
  else
    ⟨false, "normal", .low⟩

/-- `AnomalyDetector.percentile`: nearest-rank element of an
ascending-sorted list at index `⌈p / 100 * n⌉ - 1`, clamped to `≥ 0`
(index out of range — only possible for `p > 100` — yields the JS
`undefined`, defaulted here to 0). -/
def percentile (sortedValues : List ℚ) (p : ℚ) : ℚ :=
  if sortedValues.length = 0 then 0
  else
    let index : ℤ := ⌈p / 100 * sortedValues.length⌉ - 1
    sortedValues.getD (max 0 index).toNat 0

/-- Stable ascending insertion used to model `[...amounts].sort((a, b) => a - b)`. -/
def insertSorted (x : ℚ) : List ℚ → List ℚ
  | [] => [x]
  | y :: ys => if x ≤ y then x :: y :: ys else y :: insertSorted x ys

/-- Ascending sort modelling `Array.prototype.sort` with numeric
comparator. -/
def sortAsc : List ℚ → List ℚ
  | [] => []
  | x :: xs => insertSorted x (sortAsc xs)

/-- A decrypted historical transaction as consumed by
`analyzeTransaction`. -/
structure HistoricalTx where
  amount : ℚ
  category : Option String
  date : String
deriving DecidableEq

/-- The candidate transaction passed to `analyzeTransaction`. -/
structure NewTx where
  amount : ℚ
  category : Option String
deriving DecidableEq

/-- JS truthiness of `newTransaction.category` (`null` and `""` are
falsy). -/
def categoryTruthy : Option String → Bool
  | none => false
  | some c => c ≠ ""

/-- `AnomalyDetector.analyzeTransaction`: unusual-amount rule on the full
history (threshold 2.5), large-transaction rule when the history has at
least 10 amounts (against the 90th percentile of the sorted amounts), and
the category rule (threshold 2.0) when at least 5 historical transactions
share the candidate's truthy category; findings accumulate in that
order. -/
def analyzeTransaction (newTransaction : NewTx)
    (historicalTransactions : List HistoricalTx) : List AnomalyResult :=
  let amounts := historicalTransactions.map (·.amount)
  let sortedAmounts := sortAsc amounts
  let amountAnomaly := detectAmountAnomaly newTransaction.amount amounts (5 / 2)
  let anomalies1 := if amountAnomaly.isAnomaly then [amountAnomaly] else []
  let anomalies2 :=
    if 10 ≤ amounts.length then
      let p90 := percentile sortedAmounts 90
      let largeTransAnomaly := detectLargeTransaction newTransaction.amount p90
      if largeTransAnomaly.isAnomaly then [largeTransAnomaly] else []
    else []
  let anomalies3 :=
    if categoryTruthy newTransaction.category then
      let categoryTransactions := historicalTransactions.filter
        (fun t => t.category = newTransaction.category)
      if 5 ≤ categoryTransactions.length then
        let categoryAnomaly := detectAmountAnomaly newTransaction.amount
          (categoryTransactions.map (·.amount)) 2
        if categoryAnomaly.isAnomaly then
          [⟨categoryAnomaly.isAnomaly, "unusual_category_amount",
            categoryAnomaly.severity⟩]
        else []
      else []
    else []
  anomalies1 ++ anomalies2 ++ anomalies3

/-- A transaction row as consumed by `batchAnalyze`. -/
structure BatchTx where
  id : Nat
  amount : ℚ
  category : Option String
  date : String
deriving DecidableEq

/-- `AnomalyCreateInput` passed to `AnomalyModel.create`. -/
structure AnomalyCreateInput where
  user_id : Nat
  transaction_id : Option Nat
  anomaly_type : String
  severity : Severity
deriving DecidableEq

/-- `AnomalyDetector.batchAnalyze`: a no-op below 10 transactions;
otherwise one global mean/stddev over all amounts and one
`AnomalyModel.create` call per transaction whose |z-score| exceeds 2.5.
The `void` side effects are modelled as the list of created inputs, in
batch order. -/
def batchAnalyze (userId : Nat) (transactions : List BatchTx) :
    List AnomalyCreateInput :=
  if transactions.length < 10 then []
  else
    let amounts := transactions.map (·.amount)
    let m := mean amounts
    let stdDev := standardDeviation amounts
    transactions.filterMap (fun transaction =>
      let z := zScore transaction.amount m stdDev
      if |z| > 5 / 2 then
        some ⟨userId, some transaction.id, "unusual_amount",
          if |z| > 4 then .high else if |z| > 3 then .medium else .low⟩
      else none)

/-- C6: `mean [] = 0`, `standardDeviation [] = 0`, and `zScore x m 0 = 0`
for every value `x` and mean `m` — zero standard deviation never divides
by zero. -/
theorem stats_zero_edge_cases :
    mean ([] : List ℚ) = 0 ∧ standardDeviation ([] : List ℚ) = 0 ∧
    ∀ x m : ℚ, zScore x m 0 = 0 :=
  ⟨by simp [mean], by simp [standardDeviation], fun x m => by simp [zScore]⟩

/-- C7: with fewer than 5 historical amounts, `detectAmountAnomaly` returns
the non-anomalous `insufficient_data` result for every candidate amount
and threshold (total function — never an exception). -/
theorem detectAmountAnomaly_insufficient_data (amount threshold : ℚ)
    (hist : List ℚ) (h : hist.length < 5) :
    detectAmountAnomaly amount hist threshold =
      ⟨false, "insufficient_data", .low⟩ := by
  simp [detectAmountAnomaly, h]

/-- Witness for C7 at candidate amount 500 over a 3-element history. -/
theorem detectAmountAnomaly_insufficient_data_witness :
    detectAmountAnomaly 500 [1, 2, 3] (5 / 2) =
      ⟨false, "insufficient_data", .low⟩ :=
  detectAmountAnomaly_insufficient_data 500 (5 / 2) [1, 2, 3] (by decide)

/-! ## The anomaly-boundary instance (historical amounts `[10 × 9, 100]`) -/

/-- The spec's boundary history: nine transactions of 10 and one of 100
(n = 10, mean 19, population stddev 27). -/
def historyC3 : List HistoricalTx :=
  [⟨10, none, ""⟩, ⟨10, none, ""⟩, ⟨10, none, ""⟩, ⟨10, none, ""⟩,
   ⟨10, none, ""⟩, ⟨10, none, ""⟩, ⟨10, none, ""⟩, ⟨10, none, ""⟩,
   ⟨10, none, ""⟩, ⟨100, none, ""⟩]

def amountsC3 : List ℚ := [10, 10, 10, 10, 10, 10, 10, 10, 10, 100]

theorem historyC3_amounts : historyC3.map (fun t => t.amount) = amountsC3 :=
  rfl

theorem meanC3 : mean amountsC3 = 19 := by norm_num [amountsC3, mean]

theorem sdC3 : standardDeviation amountsC3 = 27 := by
  have h2 : Rat.sqrt 729 = 27 := by
    rw [show (729 : ℚ) = ((729 : ℕ) : ℚ) by norm_num, Rat.sqrt_natCast]
    norm_num [Nat.sqrt]
  norm_num [standardDeviation, amountsC3]
  convert h2 using 2
  norm_num [mean]

theorem detect10C3 :
    detectAmountAnomaly 10 amountsC3 (5 / 2) = ⟨false, "normal", .low⟩ := by
  have hlen : ¬(amountsC3.length < 5) := by norm_num [amountsC3]
  simp only [detectAmountAnomaly, if_neg hlen, meanC3, sdC3]
  norm_num [zScore, abs]

theorem detect500C3 :
    detectAmountAnomaly 500 amountsC3 (5 / 2) =
      ⟨true, "unusual_amount", .high⟩ := by
  have hlen : ¬(amountsC3.length < 5) := by norm_num [amountsC3]
  simp only [detectAmountAnomaly, if_neg hlen, meanC3, sdC3]
  norm_num [zScore, abs]

theorem sortC3 : sortAsc amountsC3 = amountsC3 := by
  norm_num [amountsC3, sortAsc, insertSorted]

theorem p90C3 : percentile amountsC3 90 = 10 := by
  have hidx : ⌈(90 : ℚ) / 100 * (amountsC3.length : ℚ)⌉ - 1 = 8 := by
    norm_num [amountsC3]
  norm_num [percentile, amountsC3] at hidx ⊢
  norm_num [show Int.toNat 8 = 8 from rfl]

theorem analyze10C3 : analyzeTransaction ⟨10, none⟩ historyC3 = [] := by
  simp only [analyzeTransaction, historyC3_amounts, sortC3, p90C3,
    detect10C3, categoryTruthy]
  norm_num [detectLargeTransaction, amountsC3]

theorem analyze500C3 :
    analyzeTransaction ⟨500, none⟩ historyC3 =
      [⟨true, "unusual_amount", .high⟩, ⟨true, "large_transaction", .high⟩] := by
  simp only [analyzeTransaction, historyC3_amounts, sortC3, p90C3,
    detect500C3, categoryTruthy]
  norm_num [detectLargeTransaction, amountsC3]

/-- C3: over the history `[10 × 9, 100]` (n = 10, mean 19, population
stddev 27), `analyzeTransaction` via `detectAmountAnomaly` at threshold
2.5 does not flag a candidate amount of 10, and flags a candidate of 500
with severity at least medium. -/
theorem anomaly_boundary :
    mean amountsC3 = 19 ∧ standardDeviation amountsC3 = 27 ∧
    (detectAmountAnomaly 10 amountsC3 (5 / 2)).isAnomaly = false ∧
    analyzeTransaction ⟨10, none⟩ historyC3 = [] ∧
    (detectAmountAnomaly 500 amountsC3 (5 / 2)).isAnomaly = true ∧
    Severity.rank .medium ≤
      Severity.rank (detectAmountAnomaly 500 amountsC3 (5 / 2)).severity ∧
    ∃ r ∈ analyzeTransaction ⟨500, none⟩ historyC3,
      r.isAnomaly = true ∧ r.type = "unusual_amount" ∧
      Severity.rank .medium ≤ Severity.rank r.severity := by
  refine ⟨meanC3, sdC3, by rw [detect10C3], analyze10C3,
    by rw [detect500C3], by rw [detect500C3]; decide, ?_⟩
  refine ⟨⟨true, "unusual_amount", .high⟩, ?_, rfl, rfl, by decide⟩
  rw [analyze500C3]
  simp

/-- C4: for a non-empty ascending-sorted list and percentile
`0 ≤ p ≤ 100`, `percentile` returns the list element at index
`⌈p / 100 * n⌉ - 1` clamped to at least 0 (nearest-rank, no
interpolation); the index is always in range. -/
theorem percentile_nearest_rank (sortedValues : List ℚ) (p : ℚ)
    (hne : sortedValues ≠ []) (hp0 : 0 ≤ p) (hp100 : p ≤ 100) :
    ∃ h : (max 0 (⌈p / 100 * (sortedValues.length : ℚ)⌉ - 1)).toNat <
        sortedValues.length,
      percentile sortedValues p =
        sortedValues.get
          ⟨(max 0 (⌈p / 100 * (sortedValues.length : ℚ)⌉ - 1)).toNat, h⟩ := by
  have hlen : sortedValues.length ≠ 0 := by
    simpa [List.length_eq_zero] using hne
  have hceil : ⌈p / 100 * (sortedValues.length : ℚ)⌉ ≤
      (sortedValues.length : ℤ) := by
    rw [Int.ceil_le]
    push_cast
    have h1 : p / 100 ≤ 1 := by linarith
    have h2 : (0 : ℚ) ≤ (sortedValues.length : ℚ) := by positivity
    nlinarith
  have hidx : (max 0 (⌈p / 100 * (sortedValues.length : ℚ)⌉ - 1)).toNat <
      sortedValues.length := by omega
  refine ⟨hidx, ?_⟩
  rw [percentile, if_neg hlen]
  rw [List.getD_eq_getElem _ _ hidx]
  simp

/-- Witness for C4: `percentile [10, 20, ..., 100] 90 = 90` (index
`⌈0.9 × 10⌉ - 1 = 8`). -/
theorem percentile_nearest_rank_witness :
    percentile [10, 20, 30, 40, 50, 60, 70, 80, 90, 100] 90 = 90 := by
  obtain ⟨h, heq⟩ := percentile_nearest_rank
    [10, 20, 30, 40, 50, 60, 70, 80, 90, 100] 90 (by simp) (by norm_num)
    (by norm_num)
  rw [heq]
  have hidx : ⌈(90 : ℚ) / 100 *
      (([10, 20, 30, 40, 50, 60, 70, 80, 90, 100] : List ℚ).length : ℚ)⌉ - 1 =
      8 := by
    norm_num
  norm_num [hidx] at h ⊢
  norm_num [show Int.toNat 8 = 8 from rfl]

/-- A `filterMap` whose function is a guarded `some` is a `filter` followed
by a `map`. -/
theorem filterMap_guard {α β : Type} (l : List α) (p : α → Prop)
    [DecidablePred p] (g : α → β) :
    (l.filterMap fun a => if p a then some (g a) else none) =
      (l.filter fun a => decide (p a)).map g := by
  induction l with
  | nil => rfl
  | cons a l ih => by_cases h : p a <;> simp [h, ih]

/-- C5: `batchAnalyze` is a no-op below 10 transactions; otherwise it uses
one global mean and population standard deviation over all amounts and
creates exactly one `unusual_amount` Finding per transaction whose
|z-score| exceeds 2.5, and none for the others. -/
theorem batchAnalyze_global_scan (u : Nat) (txs : List BatchTx) :
    (txs.length < 10 → batchAnalyze u txs = []) ∧
    (10 ≤ txs.length →
      (batchAnalyze u txs).length = (txs.filter fun t =>
        decide (|zScore t.amount (mean (txs.map fun t2 => t2.amount))
          (standardDeviation (txs.map fun t2 => t2.amount))| > 5 / 2)).length ∧
      (∀ f ∈ batchAnalyze u txs, f.user_id = u ∧
        f.anomaly_type = "unusual_amount" ∧
        ∃ t ∈ txs, f.transaction_id = some t.id ∧
          |zScore t.amount (mean (txs.map fun t2 => t2.amount))
            (standardDeviation (txs.map fun t2 => t2.amount))| > 5 / 2) ∧
      (∀ t ∈ txs,
        |zScore t.amount (mean (txs.map fun t2 => t2.amount))
          (standardDeviation (txs.map fun t2 => t2.amount))| > 5 / 2 →
        ∃ f ∈ batchAnalyze u txs, f.transaction_id = some t.id)) := by
  constructor
  · intro h
    rw [batchAnalyze, if_pos h]
  · intro h
    have hnot : ¬txs.length < 10 := by omega
    have hunfold : batchAnalyze u txs =
        (txs.filter fun t => decide
          (|zScore t.amount (mean (txs.map fun t2 => t2.amount))
            (standardDeviation (txs.map fun t2 => t2.amount))| > 5 / 2)).map
          (fun t =>
            ⟨u, some t.id, "unusual_amount",
              if |zScore t.amount (mean (txs.map fun t2 => t2.amount))
                  (standardDeviation (txs.map fun t2 => t2.amount))| > 4 then
                .high
              else if |zScore t.amount (mean (txs.map fun t2 => t2.amount))
                  (standardDeviation (txs.map fun t2 => t2.amount))| > 3 then
                .medium
              else .low⟩) := by
      rw [batchAnalyze, if_neg hnot]
      exact filterMap_guard txs _ _
    refine ⟨by rw [hunfold, List.length_map], ?_, ?_⟩
    · intro f hf
      rw [hunfold] at hf
      obtain ⟨t, ht, rfl⟩ := List.mem_map.mp hf
      rw [List.mem_filter] at ht
      exact ⟨rfl, rfl, t, ht.1, rfl, of_decide_eq_true ht.2⟩
    · intro t ht hz
      rw [hunfold]
      exact ⟨_, List.mem_map_of_mem _
        (List.mem_filter.mpr ⟨ht, decide_eq_true hz⟩), rfl⟩

/-- The 10-transaction batch (nine amounts of 10, one of 100) used as the
concrete instance for C5. -/
def batchW : List BatchTx :=
  [⟨1, 10, none, ""⟩, ⟨2, 10, none, ""⟩, ⟨3, 10, none, ""⟩,
   ⟨4, 10, none, ""⟩, ⟨5, 10, none, ""⟩, ⟨6, 10, none, ""⟩,
   ⟨7, 10, none, ""⟩, ⟨8, 10, none, ""⟩, ⟨9, 10, none, ""⟩,
   ⟨10, 100, none, ""⟩]

/-- Witness for C5 at the concrete 10-element batch. -/
theorem batchAnalyze_global_scan_witness :
    10 ≤ batchW.length ∧
    (batchAnalyze 7 batchW).length = (batchW.filter fun t =>
      decide (|zScore t.amount (mean (batchW.map fun t2 => t2.amount))
        (standardDeviation (batchW.map fun t2 => t2.amount))| >
          5 / 2)).length :=
  ⟨by decide, ((batchAnalyze_global_scan 7 batchW).2 (by decide)).1⟩

/-! ## Anomaly persistence (`AnomalyModel`, `anomalies` table) -/

/-- A row of the `anomalies` table (`Anomaly` interface). -/
structure AnomalyRow where
  id : Nat
  user_id : Nat
  transaction_id : Option Nat
  anomaly_type : String
  severity : Severity
  description : Option String
  detected_at : String
  acknowledged : Bool
deriving DecidableEq

/-- `AnomalyModel.acknowledge`: `UPDATE anomalies SET acknowledged = 1
WHERE id = ?`, returning the updated table and `changes > 0`. SQLite counts
every row matched by the `UPDATE` as changed, whether or not the stored
value differs. -/
def acknowledge (db : List AnomalyRow) (id : Nat) :
    List AnomalyRow × Bool :=
  (db.map fun r =>
    if r.id = id then
      ⟨r.id, r.user_id, r.transaction_id, r.anomaly_type, r.severity,
       r.description, r.detected_at, true⟩
    else r,
   db.any fun r => decide (r.id = id))

/-- `List.any` respects pointwise-equal predicates over the list. -/
theorem any_congr_mem {α : Type} (l : List α) (p q : α → Bool)
    (h : ∀ a ∈ l, p a = q a) : l.any p = l.any q := by
  induction l with
  | nil => rfl
  | cons a l ih => simp [h a (by simp), ih fun x hx => h x (by simp [hx])]

/-- C8: acknowledging is idempotent and one-way — acknowledging an
already-acknowledged Finding succeeds and is a no-op, every row keeps its
`detected_at`, `anomaly_type` and all other non-flag fields, no row's
`acknowledged` flag is ever reset, and repeating the operation changes
nothing. -/
theorem acknowledge_idempotent_one_way (db : List AnomalyRow) (id : Nat) :
    ((acknowledge db id).2 = true ↔ ∃ r ∈ db, r.id = id) ∧
    List.Forall₂ (fun r r' : AnomalyRow =>
      r'.id = r.id ∧ r'.user_id = r.user_id ∧
      r'.transaction_id = r.transaction_id ∧
      r'.anomaly_type = r.anomaly_type ∧ r'.severity = r.severity ∧
      r'.description = r.description ∧ r'.detected_at = r.detected_at ∧
      (r.acknowledged = true → r'.acknowledged = true) ∧
      (r.id ≠ id → r' = r)) db (acknowledge db id).1 ∧
    acknowledge (acknowledge db id).1 id = acknowledge db id ∧
    ((∀ r ∈ db, r.id = id → r.acknowledged = true) →
      (acknowledge db id).1 = db) := by
  refine ⟨by simp [acknowledge], ?_, ?_, ?_⟩
  · rw [show (acknowledge db id).1 = db.map (fun r =>
      if r.id = id then
        ⟨r.id, r.user_id, r.transaction_id, r.anomaly_type, r.severity,
         r.description, r.detected_at, true⟩
      else r) from rfl, List.forall₂_map_right_iff, List.forall₂_same]
    intro r _
    by_cases h : r.id = id <;> simp [h]
  · have hf : ∀ r : AnomalyRow,
        (fun r : AnomalyRow =>
          if r.id = id then
            (⟨r.id, r.user_id, r.transaction_id, r.anomaly_type, r.severity,
              r.description, r.detected_at, true⟩ : AnomalyRow)
          else r)
        ((fun r : AnomalyRow =>
          if r.id = id then
            (⟨r.id, r.user_id, r.transaction_id, r.anomaly_type, r.severity,
              r.description, r.detected_at, true⟩ : AnomalyRow)
          else r) r) =
        (fun r : AnomalyRow =>
          if r.id = id then
            (⟨r.id, r.user_id, r.transaction_id, r.anomaly_type, r.severity,
              r.description, r.detected_at, true⟩ : AnomalyRow)
          else r) r := by
      intro r
      by_cases h : r.id = id <;> simp [h]
    have hid : ∀ r : AnomalyRow,
        ((fun r : AnomalyRow =>
          if r.id = id then
            (⟨r.id, r.user_id, r.transaction_id, r.anomaly_type, r.severity,
              r.description, r.detected_at, true⟩ : AnomalyRow)
          else r) r).id = r.id := by
      intro r
      by_cases h : r.id = id <;> simp [h]
    simp only [acknowledge, List.map_map, Prod.mk.injEq]
    constructor
    · exact List.map_congr_left fun r _ => hf r
    · rw [List.any_map]
      apply any_congr_mem
      intro r _
      simp [Function.comp, hid r]
  · intro hall
    have : ∀ r ∈ db, (fun r : AnomalyRow =>
        if r.id = id then
          (⟨r.id, r.user_id, r.transaction_id, r.anomaly_type, r.severity,
            r.description, r.detected_at, true⟩ : AnomalyRow)
        else r) r = r := by
      intro r hr
      by_cases h : r.id = id
      · have hack := hall r hr h
        cases r
        simp_all
      · simp [h]
    calc (acknowledge db id).1 = db.map _ := rfl
      _ = db.map (fun a => a) := List.map_congr_left fun r hr => this r hr
      _ = db := List.map_id' db

/-- Witness for C8: a single already-acknowledged row — acknowledging it
again reports success and leaves the table unchanged. -/
theorem acknowledge_idempotent_one_way_witness :
    (acknowledge [⟨1, 2, none, "unusual_amount", .low, none, "2024-01-01",
        true⟩] 1).2 = true ∧
    (acknowledge [⟨1, 2, none, "unusual_amount", .low, none, "2024-01-01",
        true⟩] 1).1 =
      [⟨1, 2, none, "unusual_amount", .low, none, "2024-01-01", true⟩] := by
  have h := acknowledge_idempotent_one_way
    [⟨1, 2, none, "unusual_amount", .low, none, "2024-01-01", true⟩] 1
  exact ⟨h.1.mpr ⟨⟨1, 2, none, "unusual_amount", .low, none, "2024-01-01",
    true⟩, by simp, rfl⟩, h.2.2.2 (by decide)⟩

/-! ## The `anomalies` table DDL (database init) -/

/-- SQLite on-delete action of a declared foreign key. -/
inductive FKAction where
  | cascade
  | setNull
  | noAction
deriving DecidableEq

/-- A foreign-key declaration of a table DDL. -/
structure ForeignKey where
  column : String
  refTable : String
  onDelete : FKAction
deriving DecidableEq

/-- The foreign keys declared by the `anomalies` table DDL in `initDb`:
`FOREIGN KEY (user_id) REFERENCES users(id) ON DELETE CASCADE` and
`FOREIGN KEY (transaction_id) REFERENCES transactions(id) ON DELETE
CASCADE`. -/
def anomaliesForeignKeys : List ForeignKey :=
  [⟨"user_id", "users", .cascade⟩,
   ⟨"transaction_id", "transactions", .cascade⟩]

/-- Effect on the `anomalies` rows of deleting transaction `txId`, as
dictated by the on-delete action the DDL declares for the foreign key
referencing `transactions`: `cascade` removes referencing rows, `setNull`
nulls their reference, `noAction` leaves them (dangling). -/
def deleteTransactionEffect (fks : List ForeignKey) (txId : Nat)
    (anomalies : List AnomalyRow) : List AnomalyRow :=
  match fks.find? fun fk => decide (fk.refTable = "transactions") with
  | none => anomalies
  | some fk =>
    match fk.onDelete with
    | .cascade =>
        anomalies.filter fun a => decide (a.transaction_id ≠ some txId)
    | .setNull =>
        anomalies.map fun a =>
          if a.transaction_id = some txId then
            ⟨a.id, a.user_id, none, a.anomaly_type, a.severity,
             a.description, a.detected_at, a.acknowledged⟩
          else a
    | .noAction => anomalies

/-- C9 counterexample: a Finding referencing transaction 1 is deleted when
transaction 1 is deleted — the declared `ON DELETE CASCADE` on
`transaction_id` removes it instead of leaving a dangling/nulled
reference, so deletion paths other than user-account cascade exist. -/
theorem finding_deleted_by_transaction_cascade :
    deleteTransactionEffect anomaliesForeignKeys 1
      [⟨1, 2, some 1, "unusual_amount", .low, none, "2024-01-01", false⟩] =
      [] := by
  rfl

/-- C9 amended: per the `anomalies` DDL the `transaction_id` foreign key
declares `ON DELETE CASCADE`, so deleting a Transaction cascade-deletes
exactly the Findings that reference it; Findings referencing other (or
no) transactions survive unchanged. -/
theorem transaction_delete_cascades_findings (txId : Nat)
    (anomalies : List AnomalyRow) :
    deleteTransactionEffect anomaliesForeignKeys txId anomalies =
      anomalies.filter (fun a => decide (a.transaction_id ≠ some txId)) ∧
    (∀ a ∈ anomalies, a.transaction_id = some txId →
      a ∉ deleteTransactionEffect anomaliesForeignKeys txId anomalies) ∧
    (∀ a ∈ anomalies, a.transaction_id ≠ some txId →
      a ∈ deleteTransactionEffect anomaliesForeignKeys txId anomalies) := by
  have heq : deleteTransactionEffect anomaliesForeignKeys txId anomalies =
      anomalies.filter (fun a => decide (a.transaction_id ≠ some txId)) := by
    rfl
  refine ⟨heq, ?_, ?_⟩
  · intro a ha href hmem
    rw [heq, List.mem_filter] at hmem
    exact absurd href (of_decide_eq_true hmem.2)
  · intro a ha href
    rw [heq, List.mem_filter]
    exact ⟨ha, decide_eq_true href⟩

/-- Witness for the amended C9: of two Findings, the one referencing the
deleted transaction 1 is removed and the one referencing transaction 2
survives. -/
theorem transaction_delete_cascades_findings_witness :
    deleteTransactionEffect anomaliesForeignKeys 1
      [⟨1, 2, some 1, "unusual_amount", .low, none, "2024-01-01", false⟩,
       ⟨2, 2, some 2, "unusual_amount", .low, none, "2024-01-01", false⟩] =
      [⟨2, 2, some 2, "unusual_amount", .low, none, "2024-01-01", false⟩] ∧
    (⟨1, 2, some 1, "unusual_amount", .low, none, "2024-01-01",
        false⟩ : AnomalyRow) ∉
      deleteTransactionEffect anomaliesForeignKeys 1
        [⟨1, 2, some 1, "unusual_amount", .low, none, "2024-01-01", false⟩,
         ⟨2, 2, some 2, "unusual_amount", .low, none, "2024-01-01",
           false⟩] := by
  have h := transaction_delete_cascades_findings 1
    [⟨1, 2, some 1, "unusual_amount", .low, none, "2024-01-01", false⟩,
     ⟨2, 2, some 2, "unusual_amount", .low, none, "2024-01-01", false⟩]
  exact ⟨by rw [h.1]; rfl,
    h.2.1 ⟨1, 2, some 1, "unusual_amount", .low, none, "2024-01-01", false⟩
      (by simp) rfl⟩

/-! ## Batch read path (`useTransactions.fetchTransactions`)

Each record's decryption (`decryptTransaction` plus field reassembly) is
abstracted as a fallible per-record function `decryptRecord`; the per-record
`try/catch` in the source rethrows a sanitized error, so inside
`Promise.all` any single rejection rejects the whole combined promise: the
`catch` around the batch runs `setError` and `setTransactions` is never
reached. -/

/-- A stored transaction row as returned by `api.getTransactions`. -/
structure StoredTx where
  id : Nat
  encrypted_data : List Nat
  iv : List Nat
  category : Option String
  date : String
deriving DecidableEq

/-- Observable outcome of one `fetchTransactions` call: which state setter
ran last with what value. -/
inductive FetchOutcome (α : Type) where
  | keyMissing
  | success (transactions : List α)
  | batchError (msg : String)
deriving DecidableEq

/-- `fetchTransactions` (useTransactions.ts:11-56): error out when no key;
otherwise decrypt every record under `Promise.all` — all succeed and the
decrypted batch is stored, or the first per-record failure (rethrown as
the sanitized `"Failed to decrypt transaction data"`) rejects the whole
`Promise.all` and only the error state is set. -/
def fetchTransactions {α : Type}
    (decryptRecord : StoredTx → List Nat → Option α)
    (encryptionKey : Option (List Nat)) (txs : List StoredTx) :
    FetchOutcome α :=
  match encryptionKey with
  | none => .keyMissing
  | some key =>
    match txs.mapM (fun tx => decryptRecord tx key) with
    | some decrypted => .success decrypted
    | none => .batchError "Failed to decrypt transaction data"

/-- C2 (code evaluation at the failing input): in a two-record batch whose
first record decrypts fine and whose second fails, `fetchTransactions`
discards the whole batch — it produces the batch-level error outcome, not
a per-record failure alongside the surviving record. -/
theorem fetchTransactions_one_failure_drops_batch :
    (fun tx _ => if tx.id = 1 then some tx.id else none)
        (⟨1, [], [], none, ""⟩ : StoredTx) ([] : List Nat) = some 1 ∧
    fetchTransactions (fun tx _ => if tx.id = 1 then some tx.id else none)
      (some [])
      [⟨1, [], [], none, ""⟩, ⟨2, [], [], none, ""⟩] =
      .batchError "Failed to decrypt transaction data" := by
  constructor
  · rfl
  · rfl

/-- With every record decryptable the batch is returned in order (the
non-failing half of the batch semantics). -/
theorem fetchTransactions_all_ok {α : Type}
    (decryptRecord : StoredTx → List Nat → Option α) (key : List Nat)
    (txs : List StoredTx) (out : List α)
    (h : txs.mapM (fun tx => decryptRecord tx key) = some out) :
    fetchTransactions decryptRecord (some key) txs = .success out := by
  simp only [fetchTransactions]
  unfold List.mapM at h ⊢
  rw [h]

/-- Witness for the all-ok half of the batch semantics. -/
theorem fetchTransactions_all_ok_witness :
    fetchTransactions (fun tx _ => some tx.id) (some [])
      [⟨1, [], [], none, ""⟩, ⟨2, [], [], none, ""⟩] = .success [1, 2] :=
  fetchTransactions_all_ok (fun tx _ => some tx.id) []
    [⟨1, [], [], none, ""⟩, ⟨2, [], [], none, ""⟩] [1, 2] rfl
